import Mathlib

/-!
Verification development for the split-pane workspace manager
(`workspace-manager.py`).

The development shallowly embeds the parts of the program that the
properties below are about:

* the pane tree data model (`ContentSpec`, `Orientation`, `PaneNode`);
* the persisted representation (`PState`, one constructor per shape of the
  JSON node dictionaries the program reads and writes);
* serialization `get_state` and deserialization `create_from_state`
  (including the size-reconciliation fallback and the launch side effects
  of `set_pane_content`, returned explicitly as a list of launched
  application names);
* the structural mutations `split` (`splitOp` on a node, `splitAt` through
  a path) and `close_pane`;
* the load flow of `MainWindow.load_workspace` (order of clearing versus
  constructing, modelled on the option of a parse result);
* the drag-gesture handlers `mousePressEvent`, `mouseMoveEvent`,
  `mouseReleaseEvent` of `SplitPaneWidget`, with their observable effects
  (split requests, activation clicks, preview repaints, pointer capture)
  returned as explicit event lists;
* the filename sanitisation of `MainWindow.get_workspace_file_path`.

Pixel geometry that the program reads from live widgets (a pane's width or
height at the moment it splits) enters the embedding as an explicit extent
parameter; Qt splitters are modelled as storing the size lists the program
hands them, which is the level at which the persistence code reads them
back.
-/

namespace Creat

/-- Content of a leaf pane: the default placeholder or a launched
application, mirroring `ContentWidget.content_type` and
`ContentWidget.app_name`. -/
inductive ContentSpec where
  | default
  | app (name : String)
deriving DecidableEq

/-- Split orientation, mirroring `Qt.Horizontal` / `Qt.Vertical`. -/
inductive Orientation where
  | horizontal
  | vertical
deriving DecidableEq

/-- A pane tree node: a leaf with content, or a splitter with an
orientation, an ordered list of children and the size list last stored in
the `QSplitter`. Sizes are integers, as `QSplitter.setSizes` takes a list
of `int`. -/
inductive PaneNode where
  | leaf (content : ContentSpec)
  | split (orientation : Orientation) (children : List PaneNode) (sizes : List Int)

/-- Persisted JSON node, one constructor per dictionary shape read by
`create_from_state`: a `"pane"` node with optional `content` and
`app_name` fields, a `"split"` node with orientation string, optional
`sizes` list and children, or a node whose `"type"` is any other string. -/
inductive PState where
  | pane (content : Option String) (app_name : Option String)
  | split (orientation : String) (sizes : Option (List Int)) (children : List PState)
  | other (ty : String)

/-- Python truthiness of an optional string: `None` and the empty string
are falsy. -/
def truthy : Option String → Bool
  | none => false
  | some s => !(s == "")

/-- The observable outcome of `SplitPaneWidget.set_pane_content`: the
content the pane ends up with, together with the list of application names
launched as a side effect (`ContentWidget.launch_app` runs exactly when
the content type is `"app"` and the name is truthy). -/
def set_pane_content (content_type : String) (app_name : Option String) :
    ContentSpec × List String :=
  if content_type == "app" && truthy app_name then
    (ContentSpec.app (app_name.getD ""), [app_name.getD ""])
  else
    (ContentSpec.default, [])

/-- Orientation parsing in `create_from_state`: `Qt.Horizontal` exactly
when the string equals `"horizontal"`, otherwise `Qt.Vertical`. -/
def parseOrientation (s : String) : Orientation :=
  if s == "horizontal" then Orientation.horizontal else Orientation.vertical

/-- Orientation printing in `get_state`. -/
def orientationString : Orientation → String
  | Orientation.horizontal => "horizontal"
  | Orientation.vertical => "vertical"

mutual

/-- `SplitPaneWidget.create_from_state`: build a pane tree from a persisted
node. Returns the tree together with the application names launched while
building it, or `none` when the node type is unknown. A `"split"` node
deserializes its children recursively and adds only the children whose
recursive call succeeded; sizes are applied verbatim when the persisted
list is non-empty and matches the number of added children, and fall back
to an equal distribution otherwise. -/
def create_from_state : PState → Option (PaneNode × List String)
  | PState.pane content app_name =>
    let r := set_pane_content (content.getD "default") app_name
    some (PaneNode.leaf r.1, r.2)
  | PState.split orientation sizes children =>
    let kids := createKids children
    let ws :=
      if (sizes.getD []) ≠ [] ∧ (sizes.getD []).length = kids.length then sizes.getD []
      else List.replicate kids.length (1 : Int)
    some (PaneNode.split (parseOrientation orientation) (kids.map Prod.fst) ws,
          (kids.map Prod.snd).flatten)
  | PState.other _ => none

/-- The child loop of `create_from_state`: deserialize each child state and
keep the successful results, in order (`if child_widget:` in the source
skips the failed ones). -/
def createKids : List PState → List (PaneNode × List String)
  | [] => []
  | c :: rest =>
    match create_from_state c with
    | some r => r :: createKids rest
    | none => createKids rest

end

mutual

/-- `SplitPaneWidget.get_state`: serialize a pane tree to its persisted
representation. A leaf emits its content type and, for app content, the
application name; a split emits its orientation string, the stored sizes
and the serialized children. -/
def get_state : PaneNode → PState
  | PaneNode.leaf ContentSpec.default => PState.pane (some "default") none
  | PaneNode.leaf (ContentSpec.app n) => PState.pane (some "app") (some n)
  | PaneNode.split o cs ws => PState.split (orientationString o) (some ws) (stateList cs)

/-- The child loop of `get_state`. -/
def stateList : List PaneNode → List PState
  | [] => []
  | c :: rest => get_state c :: stateList rest

end

mutual

/-- Validity of a pane tree: every split has at least two children and a
size list of matching length with positive entries, and every app leaf has
a non-empty name. This is the shape `get_state` is applied to in the
running program. -/
def validB : PaneNode → Bool
  | PaneNode.leaf ContentSpec.default => true
  | PaneNode.leaf (ContentSpec.app n) => !(n == "")
  | PaneNode.split _ cs ws =>
    decide (2 ≤ cs.length) && (ws.length == cs.length) &&
      ws.all (fun w => decide (0 < w)) && validList cs

/-- Validity of a list of children. -/
def validList : List PaneNode → Bool
  | [] => true
  | c :: rest => validB c && validList rest

end

mutual

/-- The application names of the app leaves of a tree, in traversal
order. -/
def appNames : PaneNode → List String
  | PaneNode.leaf ContentSpec.default => []
  | PaneNode.leaf (ContentSpec.app n) => [n]
  | PaneNode.split _ cs _ => appList cs

/-- The application names of a list of children. -/
def appList : List PaneNode → List String
  | [] => []
  | c :: rest => appNames c ++ appList rest

end

/-! ## Tree navigation and structural mutations -/

/-- Path navigation (the addressing used by the mutator): follow the
child-index path from a node, `none` when the path does not resolve. -/
def getPath : PaneNode → List Nat → Option PaneNode
  | t, [] => some t
  | PaneNode.leaf _, _ :: _ => none
  | PaneNode.split _ cs _, i :: rest =>
    match cs[i]? with
    | some c => getPath c rest
    | none => none

/-- `SplitPaneWidget.split` on a single node: an already split pane returns
unchanged (`if self.is_split: return`, with no error signalled); a leaf is
replaced by a splitter of the requested orientation holding two fresh
default panes, with sizes set to two equal halves of the pane's extent
along the split axis (`splitter.setSizes([w // 2, w // 2])`). -/
def splitOp (t : PaneNode) (o : Orientation) (extent : Nat) : PaneNode :=
  match t with
  | PaneNode.split so cs ws => PaneNode.split so cs ws
  | PaneNode.leaf _ =>
    PaneNode.split o [PaneNode.leaf ContentSpec.default, PaneNode.leaf ContentSpec.default]
      [((extent / 2 : Nat) : Int), ((extent / 2 : Nat) : Int)]

/-- `splitOp` applied at a path: the node the path resolves to is split in
place; a path that does not resolve leaves the tree unchanged. -/
def splitAt : PaneNode → List Nat → Orientation → Nat → PaneNode
  | t, [], o, e => splitOp t o e
  | PaneNode.leaf c, _ :: _, _, _ => PaneNode.leaf c
  | PaneNode.split so cs ws, i :: rest, o, e =>
    match cs[i]? with
    | some c => PaneNode.split so (cs.set i (splitAt c rest o e)) ws
    | none => PaneNode.split so cs ws

/-- `SplitPaneWidget.close_pane` expressed on the tree: the addressed pane
is removed from its parent splitter together with its size entry (the
widget is deleted and the `QSplitter` forgets it); the parent splitter is
left as it is, with however many children remain — the source performs no
collapse. Closing the root (`path = []`) is refused with a warning and
changes nothing, and a path that does not resolve changes nothing. -/
def close_pane : PaneNode → List Nat → PaneNode
  | t, [] => t
  | PaneNode.leaf c, _ :: _ => PaneNode.leaf c
  | PaneNode.split so cs ws, [i] =>
    if i < cs.length then PaneNode.split so (cs.eraseIdx i) (ws.eraseIdx i)
    else PaneNode.split so cs ws
  | PaneNode.split so cs ws, i :: j :: rest =>
    match cs[i]? with
    | some c => PaneNode.split so (cs.set i (close_pane c (j :: rest))) ws
    | none => PaneNode.split so cs ws

mutual

/-- Invariant checked by the collapse rule: every split node of the tree
has at least two children. -/
def splitArity : PaneNode → Bool
  | PaneNode.leaf _ => true
  | PaneNode.split _ cs _ => decide (2 ≤ cs.length) && arityList cs

/-- Arity invariant over a list of children. -/
def arityList : List PaneNode → Bool
  | [] => true
  | c :: rest => splitArity c && arityList rest

end

/-- `MainWindow.load_workspace`, modelled on the outcome of parsing the
file: `input = none` stands for a JSON parse failure, which is raised
before the layout is cleared, so the current root pane survives; a parsed
state first has the layout cleared (discarding the current root pane) and
only then runs `create_from_state`, so a state that fails to construct
leaves the window with no root pane at all. -/
def load_workspace (current : Option PaneNode) (input : Option PState) :
    Option PaneNode :=
  match input with
  | none => current
  | some s => (create_from_state s).map Prod.fst

/-! ## The drag-gesture state machine of `SplitPaneWidget` -/

/-- Minimum drag distance to trigger a split (`SPLIT_THRESHOLD`). -/
def SPLIT_THRESHOLD : Nat := 10

/-- The gesture-relevant state of a `SplitPaneWidget`: whether it is split,
whether a handle drag is in progress, whether it holds the exclusive mouse
grab, and the position the drag started at. -/
structure GestureState where
  is_split : Bool
  dragging_handle : Bool
  captured : Bool
  drag_start_pos : Int × Int
deriving DecidableEq

/-- State of a pane before any interaction. -/
def idleState : GestureState :=
  { is_split := false, dragging_handle := false, captured := false,
    drag_start_pos := (0, 0) }

/-- Observable gesture effects: a split request with its orientation, an
activation click (the pane options dialog opening), or a preview repaint of
the drag line along the dominant axis. -/
inductive GEvent where
  | splitRequested (o : Orientation)
  | activate
  | preview (o : Orientation)
deriving DecidableEq

/-- Dominant axis of a drag delta, as computed by the source at every
decision point: horizontal when `|dx| > |dy|`, vertical otherwise. -/
def domOrient (start pos : Int × Int) : Orientation :=
  if (pos.1 - start.1).natAbs > (pos.2 - start.2).natAbs then Orientation.horizontal
  else Orientation.vertical

/-- Whether a position is past the split threshold relative to the drag
start: `abs(delta.x()) > SPLIT_THRESHOLD or abs(delta.y()) > SPLIT_THRESHOLD`. -/
def crossesThreshold (start pos : Int × Int) : Bool :=
  (pos.1 - start.1).natAbs > SPLIT_THRESHOLD || (pos.2 - start.2).natAbs > SPLIT_THRESHOLD

/-- `SplitPaneWidget.mousePressEvent`: a left-button press on the handle of
a non-split pane starts a handle drag, records the start position and
grabs the mouse; anything else leaves the state alone. -/
def mousePressEvent (s : GestureState) (pos : Int × Int)
    (inHandle leftButton : Bool) : GestureState :=
  if !s.is_split && inHandle && leftButton then
    { s with dragging_handle := true, captured := true, drag_start_pos := pos }
  else s

/-- `SplitPaneWidget.mouseMoveEvent` while relevant to the gesture: during
a handle drag, a move past the threshold performs the split along the
dominant axis, ends the drag and releases the mouse (one split request, no
further effects); a move below the threshold keeps dragging and repaints
the preview line along the dominant axis. Moves without an active drag
have no gesture effect. -/
def mouseMoveEvent (s : GestureState) (pos : Int × Int) :
    GestureState × List GEvent :=
  if s.dragging_handle then
    if !s.is_split && crossesThreshold s.drag_start_pos pos then
      ({ s with is_split := true, dragging_handle := false, captured := false },
       [GEvent.splitRequested (domOrient s.drag_start_pos pos)])
    else
      (s, [GEvent.preview (domOrient s.drag_start_pos pos)])
  else (s, [])

/-- `SplitPaneWidget.mouseReleaseEvent`: releasing during a handle drag
ends the drag and releases the mouse; when the pane is not split and the
total delta is strictly below the threshold on both axes, the release
counts as a click and opens the pane options (`activate`). -/
def mouseReleaseEvent (s : GestureState) (pos : Int × Int) :
    GestureState × List GEvent :=
  if s.dragging_handle then
    let s1 := { s with dragging_handle := false, captured := false }
    if !s.is_split && (pos.1 - s.drag_start_pos.1).natAbs < SPLIT_THRESHOLD &&
        (pos.2 - s.drag_start_pos.2).natAbs < SPLIT_THRESHOLD then
      (s1, [GEvent.activate])
    else (s1, [])
  else (s, [])

/-- Feed a list of pointer-move positions through `mouseMoveEvent`,
collecting the emitted events in order. -/
def processMoves : GestureState → List (Int × Int) → GestureState × List GEvent
  | s, [] => (s, [])
  | s, p :: ps =>
    let r := mouseMoveEvent s p
    let rest := processMoves r.1 ps
    (rest.1, r.2 ++ rest.2)

/-! ## Filename derivation of `MainWindow.get_workspace_file_path` -/

/-- Model of Python `str.isalnum` on the character set the development
evaluates it at (ASCII): letters and digits. -/
def pyIsAlnum (c : Char) : Bool := c.isAlphanum

/-- The character filter of the sanitiser: keep alphanumerics, spaces,
dots and underscores. -/
def keepChar (c : Char) : Bool :=
  pyIsAlnum c || c == ' ' || c == '.' || c == '_'

/-- Python `str.rstrip()` after the filter: of the whitespace characters
only the space survives `keepChar`, so stripping trailing whitespace is
dropping trailing spaces. -/
def rstripSpaces (l : List Char) : List Char :=
  (l.reverse.dropWhile (fun c => c == ' ')).reverse

/-- `MainWindow.get_workspace_file_path`, reduced to the filename it
produces inside the workspace directory: filter the name through
`keepChar`, strip trailing whitespace, replace the remaining spaces by
underscores, substitute `untitled_workspace` for an empty result, and
append the `.json` extension. -/
def get_workspace_file_path (workspace_name : String) : String :=
  let filtered := workspace_name.toList.filter keepChar
  let stripped := rstripSpaces filtered
  let replaced := stripped.map (fun c => if c == ' ' then '_' else c)
  let safe_name := if replaced.isEmpty then "untitled_workspace".toList else replaced
  String.mk safe_name ++ ".json"

/-- Filename derivation as the specification words it, written as an
independent definition for comparison with `get_workspace_file_path`:
keep only alphanumeric characters, spaces, dots and underscores; strip
trailing whitespace after filtering (by direct recursion: a character is
dropped when it is whitespace and only whitespace follows it); replace
remaining spaces with underscores; substitute `untitled_workspace` for an
empty result; append `.json`. -/
def stripTrailingWS : List Char → List Char
  | [] => []
  | c :: rest =>
    let r := stripTrailingWS rest
    if r.isEmpty && c == ' ' then [] else c :: r

/-- The specification-side filename derivation, see `stripTrailingWS`. -/
def filenameFromSpec (name : String) : String :=
  let kept := name.toList.filter (fun c => pyIsAlnum c || c == ' ' || c == '.' || c == '_')
  let stripped := stripTrailingWS kept
  let underscored := stripped.map (fun c => if c == ' ' then '_' else c)
  String.mk (if underscored = [] then "untitled_workspace".toList else underscored) ++ ".json"

/-- The stored size list of the node a deserialization produces, when the
result is a split node. -/
def resultWeights (s : PState) : Option (List Int) :=
  match create_from_state s with
  | some (PaneNode.split _ _ ws, _) => some ws
  | _ => none

/-- Whether a persisted node deserializes successfully. -/
def deserializes (s : PState) : Bool :=
  (create_from_state s).isSome

/-! ## Helper lemmas -/

set_option linter.unusedVariables false

/-- Structural induction over pane trees with a membership hypothesis for
the children of a split. -/
theorem paneNode_ind (P : PaneNode → Prop)
    (hleaf : ∀ c, P (PaneNode.leaf c))
    (hsplit : ∀ o cs ws, (∀ c ∈ cs, P c) → P (PaneNode.split o cs ws)) :
    ∀ t, P t
  | PaneNode.leaf c => hleaf c
  | PaneNode.split o cs ws =>
    hsplit o cs ws (fun c hc => paneNode_ind P hleaf hsplit c)
termination_by t => sizeOf t
decreasing_by
  simp_wf
  have := List.sizeOf_lt_of_mem hc
  omega

theorem parseOrientation_orientationString (o : Orientation) :
    parseOrientation (orientationString o) = o := by
  cases o <;> rfl

theorem appList_eq_flatten (cs : List PaneNode) :
    appList cs = (cs.map appNames).flatten := by
  induction cs with
  | nil => rfl
  | cons c rest ih => simp [appList, ih]

theorem createKids_stateList (cs : List PaneNode)
    (h : ∀ c ∈ cs, create_from_state (get_state c) = some (c, appNames c)) :
    createKids (stateList cs) = cs.map (fun c => (c, appNames c)) := by
  induction cs with
  | nil => rfl
  | cons c rest ih =>
    have hc := h c (by simp)
    rw [stateList, createKids, hc, ih (fun d hd => h d (by simp [hd]))]
    rfl

theorem validList_mem (cs : List PaneNode) (h : validList cs = true) :
    ∀ c ∈ cs, validB c = true := by
  induction cs with
  | nil => intro c hc; simp at hc
  | cons d rest ih =>
    rw [validList, Bool.and_eq_true] at h
    intro c hc
    rcases List.mem_cons.mp hc with hc | hc
    · exact hc ▸ h.1
    · exact ih h.2 c hc

theorem validB_split (o : Orientation) (cs : List PaneNode) (ws : List Int)
    (h : validB (PaneNode.split o cs ws) = true) :
    2 ≤ cs.length ∧ ws.length = cs.length ∧ (∀ c ∈ cs, validB c = true) := by
  rw [validB] at h
  simp only [Bool.and_eq_true, decide_eq_true_eq, beq_iff_eq] at h
  exact ⟨h.1.1.1, h.1.1.2, validList_mem cs h.2⟩

/-- Round-trip of the persistence protocol on valid trees, including the
exact list of application launches performed while loading. -/
theorem roundtrip : ∀ t : PaneNode, validB t = true →
    create_from_state (get_state t) = some (t, appNames t) := by
  intro t
  induction t using paneNode_ind with
  | hleaf c =>
    cases c with
    | default => intro _; rfl
    | app n =>
      intro h
      rw [validB] at h
      rw [get_state, create_from_state]
      simp [set_pane_content, truthy, h, appNames]
  | hsplit o cs ws ih =>
    intro h
    obtain ⟨hlen, hws, hcs⟩ := validB_split o cs ws h
    rw [get_state, create_from_state,
      createKids_stateList cs (fun c hc => ih c hc (hcs c hc))]
    have hne : ws ≠ [] := by
      intro hnil
      rw [hnil] at hws
      simp at hws
      omega
    simp only [Option.getD_some, List.length_map, hws, hne, ne_eq,
      not_false_eq_true, and_self, if_pos, List.map_map]
    rw [parseOrientation_orientationString]
    simp only [appNames, appList_eq_flatten]
    have hfst : (Prod.fst ∘ fun c : PaneNode => (c, appNames c)) = id := rfl
    have hsnd : (Prod.snd ∘ fun c : PaneNode => (c, appNames c)) = appNames := rfl
    rw [hfst, hsnd, List.map_id]

theorem createKids_insert_other (pre post : List PState) (ty : String) :
    createKids (pre ++ PState.other ty :: post) = createKids (pre ++ post) := by
  induction pre with
  | nil => rfl
  | cons c rest ih =>
    rw [List.cons_append, List.cons_append, createKids, createKids]
    cases create_from_state c with
    | some r => rw [ih]
    | none => exact ih

theorem createKids_length (cs : List PState)
    (h : ∀ c ∈ cs, deserializes c = true) :
    (createKids cs).length = cs.length := by
  induction cs with
  | nil => rfl
  | cons c rest ih =>
    have hc := h c (by simp)
    rw [deserializes] at hc
    rw [createKids]
    cases hcr : create_from_state c with
    | none => rw [hcr] at hc; simp at hc
    | some r => simp [ih (fun d hd => h d (by simp [hd]))]

theorem create_split_eq (o : String) (s : Option (List Int)) (cs : List PState) :
    create_from_state (PState.split o s cs) =
      some (PaneNode.split (parseOrientation o) ((createKids cs).map Prod.fst)
        (if (s.getD []) ≠ [] ∧ (s.getD []).length = (createKids cs).length then s.getD []
         else List.replicate (createKids cs).length 1),
        ((createKids cs).map Prod.snd).flatten) := rfl

/-! ## C1 -/

/-- C1: round-trip of persistence. For every valid pane tree (every split
has at least two children, sizes match the children in length and are
positive, app leaves carry non-empty names), deserializing the serialized
state reproduces the tree structurally: same shape, same leaf content and
app name, same orientation, same weights. -/
theorem C1_round_trip (t : PaneNode) (h : validB t = true) :
    (create_from_state (get_state t)).map Prod.fst = some t := by
  rw [roundtrip t h]
  rfl

theorem C1_round_trip_witness :
    validB (PaneNode.split Orientation.horizontal
      [PaneNode.leaf ContentSpec.default, PaneNode.leaf (ContentSpec.app "vim")]
      [3, 7]) = true
    ∧ (create_from_state (get_state (PaneNode.split Orientation.horizontal
        [PaneNode.leaf ContentSpec.default, PaneNode.leaf (ContentSpec.app "vim")]
        [3, 7]))).map Prod.fst =
      some (PaneNode.split Orientation.horizontal
        [PaneNode.leaf ContentSpec.default, PaneNode.leaf (ContentSpec.app "vim")]
        [3, 7]) :=
  ⟨rfl, C1_round_trip _ rfl⟩

/-! ## C2 -/

/-- C2, counterexample to the claim as stated: a split whose second child
has the unknown type `bogus` does not fail — `create_from_state` returns a
partial tree in which the malformed child is silently dropped (here a
vertical split with a single remaining child and fallback weights), not
`none` and not any `MalformedTree` error. -/
theorem C2_counterexample :
    create_from_state (PState.split "vertical" none
      [PState.pane (some "default") none, PState.other "bogus"]) =
    some (PaneNode.split Orientation.vertical [PaneNode.leaf ContentSpec.default] [1],
      []) := rfl

/-- C2, amended: a child of unknown type is silently skipped rather than
failing the deserialization — a persisted split containing a malformed
child at any position deserializes to exactly the same result as the same
split with that child removed. -/
theorem C2_amended (o : String) (s : Option (List Int))
    (pre post : List PState) (ty : String) :
    create_from_state (PState.split o s (pre ++ PState.other ty :: post)) =
    create_from_state (PState.split o s (pre ++ post)) := by
  rw [create_split_eq, create_split_eq, createKids_insert_other]

/-! ## C3 -/

/-- C3, counterexample to the claim as stated: a persisted split whose
sizes match the children in length but contain non-positive entries keeps
them verbatim — the source checks only truthiness and length, never
positivity — where the claim requires the fallback `[1, 1]`. -/
theorem C3_counterexample :
    resultWeights (PState.split "vertical" (some [0, -3])
      [PState.pane none none, PState.pane none none]) = some [0, -3]
    ∧ ([0, -3] : List Int) ≠ [1, 1] := ⟨rfl, by decide⟩

/-- C3, amended: for a persisted split all of whose children deserialize,
the listed sizes are used verbatim as weights if and only if the list is
present and non-empty and its length equals the number of children;
otherwise (missing, null, empty or wrong length — but not merely
non-positive) the weights fall back to the equal list `[1, ..., 1]` of the
children count. In particular sizes `[5]` with two pane children fall back
to `[1, 1]` rather than failing. -/
theorem C3_amended (o : String) (s : Option (List Int)) (cs : List PState)
    (h : ∀ c ∈ cs, deserializes c = true) :
    resultWeights (PState.split o s cs) =
      some (if (s.getD []) ≠ [] ∧ (s.getD []).length = cs.length then s.getD []
            else List.replicate cs.length 1) := by
  rw [resultWeights, create_split_eq, createKids_length cs h]

theorem C3_amended_witness :
    resultWeights (PState.split "vertical" (some [5])
      [PState.pane none none, PState.pane none none]) = some [1, 1] := by
  have h := C3_amended "vertical" (some [5])
    [PState.pane none none, PState.pane none none] (by decide)
  simpa using h

/-! ## C4 -/

/-- C4: the source violates the collapse invariant the claim states.
Closing one of the two leaves of a two-child split removes only that leaf
and its size entry; the parent split persists with exactly one child, and
the arity invariant (every split has at least two children) fails on the
resulting tree. The collapse rule of the specification is a required fix
the source does not implement. -/
theorem C4_no_collapse :
    close_pane (PaneNode.split Orientation.horizontal
      [PaneNode.leaf ContentSpec.default, PaneNode.leaf ContentSpec.default]
      [1, 1]) [0] =
      PaneNode.split Orientation.horizontal [PaneNode.leaf ContentSpec.default] [1]
    ∧ splitArity (PaneNode.split Orientation.horizontal
        [PaneNode.leaf ContentSpec.default] [1]) = false :=
  ⟨rfl, rfl⟩

/-! ## C5 -/

/-- C5: the source violates load atomicity. The layout is cleared before
the replacement tree is constructed, so an input that parses as JSON but
fails tree construction (here a node of unknown type) leaves the window
with no root pane at all instead of the previous tree. Only a JSON parse
failure, raised before the clearing step, preserves the current tree. -/
theorem C5_load_not_atomic :
    load_workspace (some (PaneNode.leaf ContentSpec.default))
      (some (PState.other "bogus")) = none
    ∧ load_workspace (some (PaneNode.leaf ContentSpec.default)) none =
      some (PaneNode.leaf ContentSpec.default) :=
  ⟨rfl, rfl⟩

/-! ## Gesture lemmas -/

theorem mouseMoveEvent_notDragging (s : GestureState) (p : Int × Int)
    (hd : s.dragging_handle = false) :
    mouseMoveEvent s p = (s, []) := by
  simp [mouseMoveEvent, hd]

theorem mouseMoveEvent_below (s : GestureState) (p : Int × Int)
    (hd : s.dragging_handle = true)
    (hc : crossesThreshold s.drag_start_pos p = false) :
    mouseMoveEvent s p = (s, [GEvent.preview (domOrient s.drag_start_pos p)]) := by
  simp [mouseMoveEvent, hd, hc]

theorem mouseMoveEvent_cross (s : GestureState) (p : Int × Int)
    (hd : s.dragging_handle = true) (hs : s.is_split = false)
    (hc : crossesThreshold s.drag_start_pos p = true) :
    mouseMoveEvent s p =
      ({ s with is_split := true, dragging_handle := false, captured := false },
       [GEvent.splitRequested (domOrient s.drag_start_pos p)]) := by
  simp [mouseMoveEvent, hd, hs, hc]

theorem processMoves_notDragging (s : GestureState) (ps : List (Int × Int))
    (hd : s.dragging_handle = false) :
    processMoves s ps = (s, []) := by
  induction ps with
  | nil => rfl
  | cons p rest ih =>
    rw [processMoves, mouseMoveEvent_notDragging s p hd]
    simpa using ih

theorem processMoves_below (s : GestureState) (ms : List (Int × Int))
    (hd : s.dragging_handle = true)
    (hms : ∀ p ∈ ms, crossesThreshold s.drag_start_pos p = false) :
    processMoves s ms =
      (s, ms.map (fun p => GEvent.preview (domOrient s.drag_start_pos p))) := by
  induction ms with
  | nil => rfl
  | cons p rest ih =>
    rw [processMoves, mouseMoveEvent_below s p hd (hms p (by simp))]
    rw [ih (fun r hr => hms r (by simp [hr]))]
    simp

theorem processMoves_gesture (s : GestureState) (pre post : List (Int × Int))
    (q : Int × Int)
    (hd : s.dragging_handle = true) (hs : s.is_split = false)
    (hpre : ∀ p ∈ pre, crossesThreshold s.drag_start_pos p = false)
    (hq : crossesThreshold s.drag_start_pos q = true) :
    processMoves s (pre ++ q :: post) =
      ({ s with is_split := true, dragging_handle := false, captured := false },
       pre.map (fun p => GEvent.preview (domOrient s.drag_start_pos p)) ++
         [GEvent.splitRequested (domOrient s.drag_start_pos q)]) := by
  induction pre with
  | nil =>
    rw [List.nil_append, processMoves, mouseMoveEvent_cross s q hd hs hq,
      processMoves_notDragging _ post rfl]
    simp
  | cons p rest ih =>
    rw [List.cons_append, processMoves, mouseMoveEvent_below s p hd (hpre p (by simp))]
    rw [ih (fun r hr => hpre r (by simp [hr]))]
    simp

/-! ## C6 -/

/-- C6: gesture split trigger. For a drag started by a press on the handle
at `p0`, at the first pointer move past the threshold (strictly more than
10 on either axis relative to `p0`) exactly one split request is emitted,
horizontal when `|dx| > |dy|` and vertical otherwise, the pointer capture
is released, and the remainder of the drag produces no further split or
preview effect: the full event list is the previews of the moves before
the crossing followed by the single split request, with nothing after
it. -/
theorem C6_split_trigger (p0 q : Int × Int) (pre post : List (Int × Int))
    (hpre : ∀ p ∈ pre, crossesThreshold p0 p = false)
    (hq : crossesThreshold p0 q = true) :
    (processMoves (mousePressEvent idleState p0 true true) (pre ++ q :: post)).2 =
      pre.map (fun p => GEvent.preview (domOrient p0 p)) ++
        [GEvent.splitRequested (domOrient p0 q)]
    ∧ (processMoves (mousePressEvent idleState p0 true true)
        (pre ++ q :: post)).1.captured = false := by
  have h := processMoves_gesture (mousePressEvent idleState p0 true true)
    pre post q rfl rfl hpre hq
  rw [h]
  exact ⟨rfl, rfl⟩

theorem C6_split_trigger_witness :
    (processMoves (mousePressEvent idleState (0, 0) true true)
        [((12 : Int), (3 : Int))]).2 =
      [GEvent.splitRequested Orientation.horizontal]
    ∧ (processMoves (mousePressEvent idleState (0, 0) true true)
        [((3 : Int), (12 : Int))]).2 =
      [GEvent.splitRequested Orientation.vertical] := by
  constructor
  · exact (C6_split_trigger (0, 0) (12, 3) [] [] (by simp) (by decide)).1.trans (by decide)
  · exact (C6_split_trigger (0, 0) (3, 12) [] [] (by simp) (by decide)).1.trans (by decide)

/-! ## C7 -/

/-- C7, counterexample to the claim as stated: a drag whose path never
exceeds the threshold but whose final delta equals it exactly. The move to
`(10, 0)` stays below the split trigger (which needs strictly more than
10), yet the release at `(10, 0)` emits nothing: the click test of the
source requires the delta to be strictly below the threshold, so the
boundary case produces no `activate` event, contrary to the claim. -/
theorem C7_counterexample :
    (processMoves (mousePressEvent idleState (0, 0) true true)
        [((10 : Int), (0 : Int))]).2 = [GEvent.preview Orientation.horizontal]
    ∧ (mouseReleaseEvent (processMoves (mousePressEvent idleState (0, 0) true true)
        [((10 : Int), (0 : Int))]).1 ((10 : Int), (0 : Int))).2 = [] := by
  decide

/-- C7, amended: for a drag begun on the handle whose moves never cross
the split threshold, pointer-up releases the capture and emits exactly one
`activate` event if and only if the final delta is strictly below the
threshold on both axes; a final delta with a component equal to the
threshold (10) emits no event at all. -/
theorem C7_click_amended (p0 r : Int × Int) (ms : List (Int × Int))
    (hms : ∀ p ∈ ms, crossesThreshold p0 p = false) :
    (mouseReleaseEvent (processMoves (mousePressEvent idleState p0 true true) ms).1
        r).2 =
      (if (r.1 - p0.1).natAbs < SPLIT_THRESHOLD ∧
          (r.2 - p0.2).natAbs < SPLIT_THRESHOLD
       then [GEvent.activate] else [])
    ∧ (mouseReleaseEvent (processMoves (mousePressEvent idleState p0 true true) ms).1
        r).1.captured = false := by
  have h := processMoves_below (mousePressEvent idleState p0 true true) ms rfl hms
  rw [h]
  constructor
  · by_cases h1 : (r.1 - p0.1).natAbs < SPLIT_THRESHOLD
    · by_cases h2 : (r.2 - p0.2).natAbs < SPLIT_THRESHOLD
      · simp [mouseReleaseEvent, mousePressEvent, idleState, h1, h2]
      · simp [mouseReleaseEvent, mousePressEvent, idleState, h1, h2]
    · simp [mouseReleaseEvent, mousePressEvent, idleState, h1]
  · by_cases h1 : (r.1 - p0.1).natAbs < SPLIT_THRESHOLD
    · by_cases h2 : (r.2 - p0.2).natAbs < SPLIT_THRESHOLD
      · simp [mouseReleaseEvent, mousePressEvent, idleState, h1, h2]
      · simp [mouseReleaseEvent, mousePressEvent, idleState, h1, h2]
    · simp [mouseReleaseEvent, mousePressEvent, idleState, h1]

theorem C7_click_amended_witness :
    (mouseReleaseEvent (processMoves (mousePressEvent idleState (0, 0) true true)
        [((3 : Int), (3 : Int))]).1 ((5 : Int), (5 : Int))).2 = [GEvent.activate]
    ∧ (mouseReleaseEvent (processMoves (mousePressEvent idleState (0, 0) true true)
        [((3 : Int), (3 : Int))]).1 ((5 : Int), (5 : Int))).1.captured = false := by
  have h := C7_click_amended (0, 0) (5, 5) [((3 : Int), (3 : Int))] (by decide)
  exact ⟨h.1.trans (by decide), h.2⟩

/-! ## C8 -/

theorem set_self_of_getq {α : Type} (l : List α) (i : Nat) (a : α)
    (h : l[i]? = some a) : l.set i a = l := by
  induction l generalizing i with
  | nil => simp at h
  | cons x xs ih =>
    cases i with
    | zero => simp at h; simp [h]
    | succ j =>
      simp only [List.getElem?_cons_succ] at h
      simp [List.set, ih j h]

theorem getq_set_self {α : Type} (l : List α) (i : Nat) (a b : α)
    (h : l[i]? = some a) : (l.set i b)[i]? = some b := by
  induction l generalizing i with
  | nil => simp at h
  | cons x xs ih =>
    cases i with
    | zero => simp [List.set]
    | succ j =>
      simp only [List.getElem?_cons_succ] at h
      simp [List.set, ih j h]

/-- C8, counterexample to the claim as stated: splitting a default leaf of
extent 100 produces two fresh default leaves, but with the equal weights
`[50, 50]` — half of the extent each, as set by the source — not the
literal `[1, 1]` the claim demands; and the source signals no
`AlreadySplit` error anywhere (splitting a split node is a silent
no-op). -/
theorem C8_counterexample :
    splitOp (PaneNode.leaf ContentSpec.default) Orientation.horizontal 100 =
      PaneNode.split Orientation.horizontal
        [PaneNode.leaf ContentSpec.default, PaneNode.leaf ContentSpec.default]
        [50, 50]
    ∧ ([50, 50] : List Int) ≠ [1, 1] := ⟨rfl, by decide⟩

/-- C8, amended: splitting at a path that resolves to an already-split
node is a silent no-op — the tree is returned unchanged and no error value
is produced, as the source has no error channel. Splitting at a path that
resolves to a leaf replaces that leaf with a split of the given
orientation holding exactly two fresh default leaves with two equal
weights, each half of the pane's extent along the split axis. -/
theorem C8_split_amended (t : PaneNode) (p : List Nat) (o : Orientation)
    (e : Nat) :
    (∀ so cs ws, getPath t p = some (PaneNode.split so cs ws) →
      splitAt t p o e = t)
    ∧ (∀ c, getPath t p = some (PaneNode.leaf c) →
      getPath (splitAt t p o e) p =
        some (PaneNode.split o
          [PaneNode.leaf ContentSpec.default, PaneNode.leaf ContentSpec.default]
          [((e / 2 : Nat) : Int), ((e / 2 : Nat) : Int)])) := by
  induction p generalizing t with
  | nil =>
    constructor
    · intro so cs ws h
      rw [getPath] at h
      cases h
      rfl
    · intro c h
      rw [getPath] at h
      cases h
      rfl
  | cons i rest ih =>
    cases t with
    | leaf c =>
      constructor
      · intro so cs ws h
        rw [getPath] at h
        simp at h
      · intro c h
        rw [getPath] at h
        simp at h
    | split so cs ws =>
      constructor
      · intro so2 cs2 ws2 h
        rw [getPath] at h
        cases hcr : cs[i]? with
        | none => rw [hcr] at h; simp at h
        | some child =>
          rw [hcr] at h
          have hs := (ih child).1 so2 cs2 ws2 h
          rw [splitAt, hcr]
          show PaneNode.split so (cs.set i (splitAt child rest o e)) ws =
            PaneNode.split so cs ws
          rw [hs, set_self_of_getq cs i child hcr]
      · intro c h
        rw [getPath] at h
        cases hcr : cs[i]? with
        | none => rw [hcr] at h; simp at h
        | some child =>
          rw [hcr] at h
          have hs := (ih child).2 c h
          rw [splitAt, hcr]
          show getPath (PaneNode.split so (cs.set i (splitAt child rest o e)) ws)
            (i :: rest) = _
          rw [getPath, getq_set_self cs i child (splitAt child rest o e) hcr]
          exact hs

theorem C8_split_amended_witness :
    splitAt (PaneNode.split Orientation.horizontal
      [PaneNode.leaf ContentSpec.default, PaneNode.leaf ContentSpec.default]
      [1, 1]) [] Orientation.vertical 8 =
      PaneNode.split Orientation.horizontal
        [PaneNode.leaf ContentSpec.default, PaneNode.leaf ContentSpec.default]
        [1, 1]
    ∧ getPath (splitAt (PaneNode.leaf (ContentSpec.app "vim")) []
        Orientation.vertical 8) [] =
      some (PaneNode.split Orientation.vertical
        [PaneNode.leaf ContentSpec.default, PaneNode.leaf ContentSpec.default]
        [4, 4]) := by
  constructor
  · exact (C8_split_amended (PaneNode.split Orientation.horizontal
      [PaneNode.leaf ContentSpec.default, PaneNode.leaf ContentSpec.default]
      [1, 1]) [] Orientation.vertical 8).1 _ _ _ rfl
  · exact (C8_split_amended (PaneNode.leaf (ContentSpec.app "vim")) []
      Orientation.vertical 8).2 (ContentSpec.app "vim") rfl

/-! ## C9 -/

theorem dropWhile_append_singleton (p : Char → Bool) (c : Char) :
    ∀ xs : List Char,
      (xs ++ [c]).dropWhile p =
        if (xs.dropWhile p).isEmpty then (if p c then [] else [c])
        else xs.dropWhile p ++ [c] := by
  intro xs
  induction xs with
  | nil => cases hp : p c <;> simp [List.dropWhile, hp]
  | cons x rest ih =>
    rw [List.cons_append, List.dropWhile, List.dropWhile]
    cases hx : p x with
    | true => simpa using ih
    | false => simp

theorem stripTrailingWS_eq_rstrip (l : List Char) :
    stripTrailingWS l = rstripSpaces l := by
  induction l with
  | nil => rfl
  | cons c rest ih =>
    rw [stripTrailingWS, ih, rstripSpaces, rstripSpaces, List.reverse_cons,
      dropWhile_append_singleton]
    cases he : (rest.reverse.dropWhile (fun c => c == ' ')).isEmpty with
    | true =>
      have hr : rest.reverse.dropWhile (fun c => c == ' ') = [] :=
        List.isEmpty_iff.mp he
      rw [hr]
      cases hc : (c == ' ') with
      | true => simp [hc]
      | false => simp [hc]
    | false =>
      have hrev : ((rest.reverse.dropWhile (fun c => c == ' ')).reverse).isEmpty
          = false := by
        cases hx : rest.reverse.dropWhile (fun c => c == ' ') with
        | nil => rw [hx] at he; simp at he
        | cons y ys => simp
      rw [hrev]
      simp

/-- C9: filename derivation. The file name the program saves under is
obtained from the user-entered workspace name by keeping only
alphanumeric characters, spaces, dots and underscores, stripping trailing
whitespace after filtering, replacing the remaining spaces with
underscores, substituting `untitled_workspace` when the result is empty,
and appending `.json` — stated as agreement with the independently worded
`filenameFromSpec` and verified on the two concrete examples of the
specification. -/
theorem C9_filename :
    (∀ name, get_workspace_file_path name = filenameFromSpec name)
    ∧ get_workspace_file_path "My Workspace!" = "My_Workspace.json"
    ∧ get_workspace_file_path "   " = "untitled_workspace.json" := by
  refine ⟨?_, rfl, rfl⟩
  intro name
  simp only [get_workspace_file_path, filenameFromSpec, stripTrailingWS_eq_rstrip]
  rw [show (fun c => pyIsAlnum c || c == ' ' || c == '.' || c == '_') = keepChar
    from rfl]
  cases hrep : (rstripSpaces (name.toList.filter keepChar)).map
      (fun c => if c == ' ' then '_' else c) with
  | nil => rfl
  | cons a as => rfl

/-! ## C10 -/

/-- C10: deserializing a persisted pane node of app content with a
non-empty name produces an app leaf and launches the named application as
a side effect of tree construction; with a missing or empty name the leaf
silently degrades to default content with no error and no launch; and
loading the saved state of any valid tree launches exactly the names of
its app leaves, in traversal order. -/
theorem C10_app_launch (n : String) (hn : n ≠ "") (an : Option String)
    (han : an = none ∨ an = some "") (t : PaneNode) (hv : validB t = true) :
    create_from_state (PState.pane (some "app") (some n)) =
      some (PaneNode.leaf (ContentSpec.app n), [n])
    ∧ create_from_state (PState.pane (some "app") an) =
      some (PaneNode.leaf ContentSpec.default, [])
    ∧ (create_from_state (get_state t)).map Prod.snd = some (appNames t) := by
  refine ⟨?_, ?_, ?_⟩
  · rw [create_from_state]
    simp [set_pane_content, truthy, hn]
  · rcases han with h | h <;> subst h <;> rfl
  · rw [roundtrip t hv]
    rfl

theorem C10_app_launch_witness :
    create_from_state (PState.pane (some "app") (some "vim")) =
      some (PaneNode.leaf (ContentSpec.app "vim"), ["vim"])
    ∧ create_from_state (PState.pane (some "app") none) =
      some (PaneNode.leaf ContentSpec.default, [])
    ∧ (create_from_state (get_state (PaneNode.split Orientation.vertical
        [PaneNode.leaf (ContentSpec.app "xterm"), PaneNode.leaf ContentSpec.default]
        [2, 3]))).map Prod.snd = some ["xterm"] := by
  have h := C10_app_launch "vim" (by decide) none (Or.inl rfl)
    (PaneNode.split Orientation.vertical
      [PaneNode.leaf (ContentSpec.app "xterm"), PaneNode.leaf ContentSpec.default]
      [2, 3]) rfl
  exact ⟨h.1, h.2.1, h.2.2⟩

end Creat
